import Mathlib

set_option maxRecDepth 4000

/-!
Verification of the header stub
`scripts/cross-build-macos/darwin-headers/sys/syscall.h`.

The artifact is a nine-line C header whose body is empty except for an
include guard.  We embed the relevant fragment of the C preprocessor:
translation phase 3 (block-comment removal), line splitting, parsing of
the three directives the file uses (ifndef / define / endif), the
object-like definition state, conditional-inclusion processing with a
nesting stack, include resolution against a search path, and the
diagnostics a compiler would raise (missing header, undeclared
identifier, stray or unterminated conditional, unknown directive).
The header's nine physical lines are transcribed verbatim below and the
whole pipeline is executable, so every concrete fact about the file can
be settled by `decide`.
-/

namespace SyscallStub

/-- The nine physical lines of `sys/syscall.h`, transcribed verbatim. -/
def sourceLines : List String :=
  [ "/* Stub sys/syscall.h for macOS cross-compilation.",
    " *",
    " * The real header is part of the macOS SDK (Xcode) and is not available when",
    " * cross-compiling from Linux.  jemalloc unconditionally includes it, but only",
    " * uses the Linux-specific SYS_* / __NR_* constants that do not exist on macOS",
    " * anyway, so an empty stub is sufficient. */",
    "#ifndef _SYS_SYSCALL_H_",
    "#define _SYS_SYSCALL_H_",
    "#endif" ]

/-- Newline separator used to rebuild the file's character stream. -/
def nlStr : String := "\n"

/-- The file as a character stream (the lines joined by newlines). -/
def sourceText : List Char :=
  (String.intercalate nlStr sourceLines).toList

/-- Translation phase 3: each `/* ... */` block comment is replaced by a
single space; the `Bool` records whether we are inside a comment. -/
def stripC : Bool → List Char → List Char
  | _, [] => []
  | false, '/' :: '*' :: rest => ' ' :: stripC true rest
  | false, c :: rest => c :: stripC false rest
  | true, '*' :: '/' :: rest => stripC false rest
  | true, _ :: rest => stripC true rest

/-- Split a character stream at newline characters. -/
def splitNL : List Char → List (List Char)
  | [] => [[]]
  | c :: rest =>
    let r := splitNL rest
    if c == '\n' then [] :: r
    else (c :: r.headD []) :: r.tail

/-- Horizontal whitespace. -/
def isWS (c : Char) : Bool := c == ' ' || c == '\t'

/-- Accumulating word splitter: splits a line into maximal runs of
non-whitespace characters. -/
def wordsGo (cur : List Char) : List Char → List (List Char)
  | [] => if cur.isEmpty then [] else [cur.reverse]
  | c :: rest =>
    if isWS c then
      if cur.isEmpty then wordsGo [] rest
      else cur.reverse :: wordsGo [] rest
    else wordsGo (c :: cur) rest

/-- The whitespace-separated words of a line. -/
def wordsOf (l : List Char) : List (List Char) := wordsGo [] l

/-- A preprocessing line, as the directive parser classifies it:
one of the three directives the stub uses, a blank line, an ordinary
text line carrying tokens, or a directive this model does not support
(which the processor reports as a diagnostic). -/
inductive PPLine
  | ifndefD (n : String)
  | defineD (n : String) (repl : List String)
  | endifD
  | blank
  | other (toks : List String)
  | unknownD (toks : List String)
deriving DecidableEq

/-- Classify one (comment-stripped) line.  A line whose first
non-whitespace character is `#` is a directive; its first word selects
the directive kind and the remaining words are its operands.  Any other
line is ordinary text, tokenized by whitespace. -/
def parseLine (l : List Char) : PPLine :=
  let t := l.dropWhile isWS
  match t with
  | [] => PPLine.blank
  | c :: rest =>
    if c == '#' then
      match wordsOf rest with
      | [] => PPLine.blank
      | d :: args =>
        let dn : String := ⟨d⟩
        if dn == "ifndef" then
          match args with
          | [n] => PPLine.ifndefD ⟨n⟩
          | _ => PPLine.unknownD (args.map fun w => (⟨w⟩ : String))
        else if dn == "define" then
          match args with
          | n :: repl => PPLine.defineD ⟨n⟩ (repl.map fun w => (⟨w⟩ : String))
          | [] => PPLine.unknownD []
        else if dn == "endif" then PPLine.endifD
        else PPLine.unknownD ((d :: args).map fun w => (⟨w⟩ : String))
    else PPLine.other ((wordsOf t).map fun w => (⟨w⟩ : String))

/-- The preprocessing lines of a character stream: strip comments,
split into lines, classify each. -/
def ppLinesOf (text : List Char) : List PPLine :=
  (splitNL (stripC false text)).map parseLine

/-- The preprocessing lines of the stub file itself. -/
def stubLines : List PPLine := ppLinesOf sourceText

/-- The include-guard name used by the stub. -/
def gName : String := "_SYS_SYSCALL_H_"

/-- The preprocessor's definition state: the list of object-like
definitions currently in force, most recent first (name and
replacement-token list). -/
structure PPState where
  defs : List (String × List String)
deriving DecidableEq

/-- Replacement tokens of `n`, if `n` is currently defined. -/
def lookupDef (st : PPState) (n : String) : Option (List String) :=
  (st.defs.find? (fun p => p.1 == n)).map (fun p => p.2)

/-- Whether `n` is currently defined. -/
def isDefined (st : PPState) (n : String) : Bool :=
  (lookupDef st n).isSome

/-- Expand one token: a defined name is replaced by its replacement
tokens (object-like, single pass), anything else stands for itself. -/
def expandTok (st : PPState) (t : String) : List String :=
  match lookupDef st t with
  | some r => r
  | none => [t]

/-- Expand every token of a text line. -/
def expandToks (st : PPState) (ts : List String) : List String :=
  (ts.map (expandTok st)).flatten

/-- Diagnostics the toolchain can raise while preprocessing and
compiling. -/
inductive Diag
  | missingHeader (n : String)
  | undeclaredId (n : String)
  | strayEndif
  | unterminatedCond
  | unknownDirective (toks : List String)
deriving DecidableEq

/-- Whether every branch of the conditional-nesting stack is active. -/
def allTrue (stk : List Bool) : Bool := stk.all (fun b => b)

/-- Process a list of preprocessing lines.  `stk` is the conditional
nesting stack (one `Bool` per open `#ifndef`, `true` when its body is
taken).  Returns the final definition state, the emitted token stream,
and the diagnostics raised. -/
def runLines : PPState → List Bool → List PPLine →
    PPState × List String × List Diag
  | st, stk, [] =>
    (st, [], if stk.isEmpty then [] else [Diag.unterminatedCond])
  | st, stk, PPLine.blank :: rest => runLines st stk rest
  | st, stk, PPLine.ifndefD n :: rest =>
    runLines st ((allTrue stk && !(isDefined st n)) :: stk) rest
  | st, stk, PPLine.endifD :: rest =>
    match stk with
    | [] =>
      let r := runLines st [] rest
      (r.1, r.2.1, Diag.strayEndif :: r.2.2)
    | _ :: stk2 => runLines st stk2 rest
  | st, stk, PPLine.defineD n repl :: rest =>
    if allTrue stk then runLines ⟨(n, repl) :: st.defs⟩ stk rest
    else runLines st stk rest
  | st, stk, PPLine.other ts :: rest =>
    if allTrue stk then
      let r := runLines st stk rest
      (r.1, expandToks st ts ++ r.2.1, r.2.2)
    else runLines st stk rest
  | st, stk, PPLine.unknownD ts :: rest =>
    if allTrue stk then
      let r := runLines st stk rest
      (r.1, r.2.1, Diag.unknownDirective ts :: r.2.2)
    else runLines st stk rest

/-- Include the stub once from state `st` (process its lines with an
empty conditional stack, as at the point of an include directive). -/
def includeOnce (st : PPState) : PPState × List String × List Diag :=
  runLines st [] stubLines

/-- Include the stub `n` times in a row, concatenating the emitted
token streams and diagnostics. -/
def includeNTimes : Nat → PPState → PPState × List String × List Diag
  | 0, st => (st, [], [])
  | k + 1, st =>
    let r1 := includeOnce st
    let r2 := includeNTimes k r1.1
    (r2.1, r1.2.1 ++ r2.2.1, r1.2.2 ++ r2.2.2)

/-- The path name under which the stub is found. -/
def hdrName : String := "sys/syscall.h"

/-- One item of a translation unit: an include directive, or a
preprocessing line of the unit itself. -/
inductive TUItem
  | inc (n : String)
  | raw (l : PPLine)
deriving DecidableEq

/-- Process a translation unit against an include search path mapping
header names to their preprocessing lines.  An active include directive
is resolved against the path: the found header's lines are processed
(with a fresh conditional stack, since C conditionals must balance
within a file); an unresolved one raises a missing-header diagnostic. -/
def runTU (path : List (String × List PPLine)) :
    PPState → List Bool → List TUItem →
    PPState × List String × List Diag
  | st, stk, [] =>
    (st, [], if stk.isEmpty then [] else [Diag.unterminatedCond])
  | st, stk, TUItem.inc n :: rest =>
    if allTrue stk then
      match path.find? (fun p => p.1 == n) with
      | some p =>
        let r1 := runLines st [] p.2
        let r2 := runTU path r1.1 stk rest
        (r2.1, r1.2.1 ++ r2.2.1, r1.2.2 ++ r2.2.2)
      | none =>
        let r := runTU path st stk rest
        (r.1, r.2.1, Diag.missingHeader n :: r.2.2)
    else runTU path st stk rest
  | st, stk, TUItem.raw PPLine.blank :: rest => runTU path st stk rest
  | st, stk, TUItem.raw (PPLine.ifndefD n) :: rest =>
    runTU path st ((allTrue stk && !(isDefined st n)) :: stk) rest
  | st, stk, TUItem.raw PPLine.endifD :: rest =>
    match stk with
    | [] =>
      let r := runTU path st [] rest
      (r.1, r.2.1, Diag.strayEndif :: r.2.2)
    | _ :: stk2 => runTU path st stk2 rest
  | st, stk, TUItem.raw (PPLine.defineD n repl) :: rest =>
    if allTrue stk then runTU path ⟨(n, repl) :: st.defs⟩ stk rest
    else runTU path st stk rest
  | st, stk, TUItem.raw (PPLine.other ts) :: rest =>
    if allTrue stk then
      let r := runTU path st stk rest
      (r.1, expandToks st ts ++ r.2.1, r.2.2)
    else runTU path st stk rest
  | st, stk, TUItem.raw (PPLine.unknownD ts) :: rest =>
    if allTrue stk then
      let r := runTU path st stk rest
      (r.1, r.2.1, Diag.unknownDirective ts :: r.2.2)
    else runTU path st stk rest

/-- Whether a token looks like a C identifier (starts with a letter or
underscore), so that an unresolved one draws an undeclared-identifier
diagnostic from the compiler proper. -/
def isIdentTok (t : String) : Bool :=
  match t.toList with
  | [] => false
  | c :: _ => c.isAlpha || c == '_'

/-- Undeclared-identifier diagnostics: identifier-like tokens of the
preprocessed stream that are not in the declared set. -/
def undeclared (declared : List String) (out : List String) : List Diag :=
  (out.filter (fun t => isIdentTok t && !(declared.contains t))).map
    Diag.undeclaredId

/-- Compile a translation unit: preprocess it against the path from
state `st`, then check the emitted tokens against the declared set.
Result: all diagnostics. -/
def compileTU (path : List (String × List PPLine))
    (declared : List String) (st : PPState) (tu : List TUItem) :
    List Diag :=
  (runTU path st [] tu).2.2 ++
    undeclared declared (runTU path st [] tu).2.1

/-- The empty preprocessor state. -/
def st0 : PPState := ⟨[]⟩

/-- Character-list version of `String.startsWith`. -/
def hasPre : List Char → List Char → Bool
  | [], _ => true
  | _ :: _, [] => false
  | p :: ps, c :: cs => p == c && hasPre ps cs

/-- Whether a preprocessing line mentions the guard name (tests it,
defines it, or uses it as a text token). -/
def usesGuard : PPLine → Bool
  | PPLine.ifndefD n => n == gName
  | PPLine.defineD n _ => n == gName
  | PPLine.other ts => ts.any (fun t => t == gName)
  | _ => false

/-- Whether a translation-unit item mentions the guard name. -/
def usesGuardTU : TUItem → Bool
  | TUItem.raw l => usesGuard l
  | TUItem.inc _ => false

/-- Relation between the state reached with the stub included (left)
and without it (right): the left state has the guard defined, and the
two states agree on every other name. -/
def Rel (st1 st2 : PPState) : Prop :=
  isDefined st1 gName = true ∧
  ∀ m, m ≠ gName → lookupDef st1 m = lookupDef st2 m

/-- A search path is admissible when every header on it is either the
stub itself or never mentions the guard name. -/
def PathOK (path : List (String × List PPLine)) : Prop :=
  ∀ p ∈ path, p.2 = stubLines ∨ p.2.all (fun l => !(usesGuard l)) = true

/-- An include search path whose first entry resolves the stub's
name to the stub's lines. -/
def stubPath (rest : List (String × List PPLine)) :
    List (String × List PPLine) :=
  (hdrName, stubLines) :: rest

/-- A declared ordinary identifier, for concrete test units. -/
def xTok : String := "X"

/-- A Linux syscall-number constant name, for concrete test units. -/
def sysTok : String := "SYS_gettid"

/-- The `SYS_` name pattern of the stub's comment. -/
def sysPreStr : String := "SYS_"

/-- The `__NR_` name pattern of the stub's comment. -/
def nrPreStr : String := "__NR_"

/-- A one-line unit emitting the single token `X`. -/
def tuX : List TUItem := [TUItem.raw (PPLine.other [xTok])]

/-- A unit that references a Linux syscall constant. -/
def tuSys : List TUItem := [TUItem.raw (PPLine.other [sysTok])]

/-- A unit that tests the guard macro itself. -/
def tuGuardTest : List TUItem :=
  [TUItem.raw (PPLine.ifndefD gName), TUItem.raw (PPLine.other [xTok]),
   TUItem.raw PPLine.endifD]

/-- A state in which the guard is already defined. -/
def stG : PPState := ⟨[(gName, [])]⟩

/-- The computed preprocessing lines of the stub: the comment block
collapses to one blank line, followed by the three guard directives. -/
theorem stubLines_val : stubLines =
    [PPLine.blank, PPLine.ifndefD gName,
     PPLine.defineD gName [], PPLine.endifD] := by decide

theorem lookupDef_cons (n m : String) (r : List String)
    (defs : List (String × List String)) :
    lookupDef ⟨(n, r) :: defs⟩ m =
      if n == m then some r else lookupDef ⟨defs⟩ m := by
  by_cases h : (n == m) = true <;> simp [lookupDef, List.find?, h]

theorem isDefined_cons (n m : String) (r : List String)
    (defs : List (String × List String)) :
    isDefined ⟨(n, r) :: defs⟩ m =
      if n == m then true else isDefined ⟨defs⟩ m := by
  by_cases h : (n == m) = true <;> simp [isDefined, lookupDef_cons, h]

/-- First inclusion from a state where the guard is not yet defined:
the guard is defined with empty replacement, nothing else changes, no
tokens are emitted, no diagnostics arise. -/
theorem includeOnce_not_defined (st : PPState)
    (h : isDefined st gName = false) :
    includeOnce st = (⟨(gName, []) :: st.defs⟩, [], []) := by
  simp only [gName] at h
  simp [includeOnce, stubLines_val, runLines, allTrue, h, List.all, gName]

/-- Inclusion from a state where the guard is already defined is a
complete no-op. -/
theorem includeOnce_defined (st : PPState)
    (h : isDefined st gName = true) :
    includeOnce st = (st, [], []) := by
  simp only [gName] at h
  simp [includeOnce, stubLines_val, runLines, allTrue, h, List.all, gName]

/-- Closed form of a single inclusion. -/
theorem includeOnce_eq (st : PPState) :
    includeOnce st =
      (if isDefined st gName then st else ⟨(gName, []) :: st.defs⟩,
       [], []) := by
  by_cases h : isDefined st gName = true
  · simp [h, includeOnce_defined st h]
  · have h2 : isDefined st gName = false := by simpa using h
    simp [h2, includeOnce_not_defined st h2]

/-- After any inclusion the guard is defined. -/
theorem guard_defined_after (st : PPState) :
    isDefined (includeOnce st).1 gName = true := by
  rw [includeOnce_eq]
  by_cases h : isDefined st gName = true
  · simp [h]
  · simp [h, isDefined_cons]

theorem isDefined_congr (st1 st2 : PPState) (m : String)
    (hne : m ≠ gName)
    (hrel : ∀ k, k ≠ gName → lookupDef st1 k = lookupDef st2 k) :
    isDefined st1 m = isDefined st2 m := by
  simp [isDefined, hrel m hne]

theorem expandToks_congr (st1 st2 : PPState)
    (hrel : ∀ k, k ≠ gName → lookupDef st1 k = lookupDef st2 k) :
    ∀ ts : List String, ts.any (fun t => t == gName) = false →
      expandToks st1 ts = expandToks st2 ts := by
  intro ts
  induction ts with
  | nil => intro _; rfl
  | cons t rest ih =>
    intro h
    rw [List.any_cons, Bool.or_eq_false_iff] at h
    have hne : t ≠ gName := by simpa using h.1
    have ih2 := ih h.2
    have ht : expandTok st1 t = expandTok st2 t := by
      simp [expandTok, hrel t hne]
    calc expandToks st1 (t :: rest)
        = expandTok st1 t ++ expandToks st1 rest := by simp [expandToks]
      _ = expandTok st2 t ++ expandToks st2 rest := by rw [ht, ih2]
      _ = expandToks st2 (t :: rest) := by simp [expandToks]

/-- `Rel` survives pushing the same non-guard definition on both
sides. -/
theorem rel_cons (st1 st2 : PPState) (n : String) (r : List String)
    (hne : n ≠ gName) (hrel : Rel st1 st2) :
    Rel ⟨(n, r) :: st1.defs⟩ ⟨(n, r) :: st2.defs⟩ := by
  obtain ⟨hg, hlk⟩ := hrel
  constructor
  · rw [isDefined_cons]
    have : (n == gName) = false := by simpa using hne
    simpa [this] using hg
  · intro m hm
    rw [lookupDef_cons, lookupDef_cons]
    by_cases hc : (n == m) = true
    · simp [hc]
    · simp only [Bool.not_eq_true] at hc
      simp [hc, hlk m hm]

/-- Lines that never mention the guard process identically from
`Rel`-related states: same output, same diagnostics, `Rel`-related
final states. -/
theorem runLines_inv (lines : List PPLine) :
    ∀ st1 st2 stk, Rel st1 st2 →
      lines.all (fun l => !(usesGuard l)) = true →
      (runLines st1 stk lines).2.1 = (runLines st2 stk lines).2.1 ∧
      (runLines st1 stk lines).2.2 = (runLines st2 stk lines).2.2 ∧
      Rel (runLines st1 stk lines).1 (runLines st2 stk lines).1 := by
  induction lines with
  | nil =>
    intro st1 st2 stk hrel _
    exact ⟨rfl, rfl, hrel⟩
  | cons l rest ih =>
    intro st1 st2 stk hrel hall
    rw [List.all_cons, Bool.and_eq_true] at hall
    obtain ⟨hl, hrest⟩ := hall
    cases l with
    | blank => exact ih st1 st2 stk hrel hrest
    | ifndefD n =>
      have hne : n ≠ gName := by simpa [usesGuard] using hl
      have hdef : isDefined st1 n = isDefined st2 n :=
        isDefined_congr st1 st2 n hne hrel.2
      simp only [runLines, hdef]
      exact ih st1 st2 _ hrel hrest
    | endifD =>
      cases stk with
      | nil =>
        have h := ih st1 st2 [] hrel hrest
        simp only [runLines]
        exact ⟨h.1, by rw [h.2.1], h.2.2⟩
      | cons b stk2 =>
        simp only [runLines]
        exact ih st1 st2 stk2 hrel hrest
    | defineD n r =>
      have hne : n ≠ gName := by simpa [usesGuard] using hl
      by_cases hact : allTrue stk = true
      · simp only [runLines, hact, if_true]
        exact ih _ _ stk (rel_cons st1 st2 n r hne hrel) hrest
      · simp only [runLines, hact, if_false]
        exact ih st1 st2 stk hrel hrest
    | other ts =>
      have hts : ts.any (fun t => t == gName) = false := by
        simpa [usesGuard] using hl
      have hexp : expandToks st1 ts = expandToks st2 ts :=
        expandToks_congr st1 st2 hrel.2 ts hts
      by_cases hact : allTrue stk = true
      · have h := ih st1 st2 stk hrel hrest
        simp only [runLines, hact, if_true]
        exact ⟨by rw [h.1, hexp], h.2.1, h.2.2⟩
      · simp only [runLines, hact, if_false]
        exact ih st1 st2 stk hrel hrest
    | unknownD ts =>
      by_cases hact : allTrue stk = true
      · have h := ih st1 st2 stk hrel hrest
        simp only [runLines, hact, if_true]
        exact ⟨h.1, by rw [h.2.1], h.2.2⟩
      · simp only [runLines, hact, if_false]
        exact ih st1 st2 stk hrel hrest

/-- The states reached by one inclusion with and without prior guard
definition are `Rel`-related to the starting state. -/
theorem rel_includeOnce (st : PPState) : Rel (includeOnce st).1 st := by
  constructor
  · exact guard_defined_after st
  · intro m hm
    rw [includeOnce_eq]
    by_cases h : isDefined st gName = true
    · simp [h]
    · have hne : (gName == m) = false := by
        simpa using fun he => hm he.symm
      simp [h, lookupDef_cons, hne]

/-- Processing the stub from `Rel`-related states: both sides emit
nothing, raise nothing, and the results stay `Rel`-related. -/
theorem runLines_stub_rel (st1 st2 : PPState) (hrel : Rel st1 st2) :
    (runLines st1 [] stubLines).2.1 = (runLines st2 [] stubLines).2.1 ∧
    (runLines st1 [] stubLines).2.2 = (runLines st2 [] stubLines).2.2 ∧
    Rel (runLines st1 [] stubLines).1 (runLines st2 [] stubLines).1 := by
  have h1 : runLines st1 [] stubLines = (st1, [], []) :=
    includeOnce_defined st1 hrel.1
  have h2 : runLines st2 [] stubLines = includeOnce st2 := rfl
  rw [h1, h2, includeOnce_eq]
  by_cases h : isDefined st2 gName = true
  · simp only [h, if_true]
    exact ⟨trivial, trivial, hrel⟩
  · refine ⟨by simp [h], by simp [h], ?_⟩
    refine ⟨hrel.1, fun m hm => ?_⟩
    have hne : (gName == m) = false := by
      simpa using fun he => hm he.symm
    simp [h, lookupDef_cons, hne, hrel.2 m hm]

/-- Translation units whose own lines never mention the guard process
identically from `Rel`-related states, for any admissible path. -/
theorem runTU_inv (path : List (String × List PPLine))
    (hpath : PathOK path) (tu : List TUItem) :
    ∀ st1 st2 stk, Rel st1 st2 →
      tu.all (fun i => !(usesGuardTU i)) = true →
      (runTU path st1 stk tu).2.1 = (runTU path st2 stk tu).2.1 ∧
      (runTU path st1 stk tu).2.2 = (runTU path st2 stk tu).2.2 ∧
      Rel (runTU path st1 stk tu).1 (runTU path st2 stk tu).1 := by
  induction tu with
  | nil =>
    intro st1 st2 stk hrel _
    exact ⟨rfl, rfl, hrel⟩
  | cons item rest ih =>
    intro st1 st2 stk hrel hall
    rw [List.all_cons, Bool.and_eq_true] at hall
    obtain ⟨hi, hrest⟩ := hall
    cases item with
    | inc n =>
      by_cases hact : allTrue stk = true
      · cases hf : path.find? (fun p => p.1 == n) with
        | some p =>
          have hmem : p ∈ path := List.mem_of_find?_eq_some hf
          have hstep :
              (runLines st1 [] p.2).2.1 = (runLines st2 [] p.2).2.1 ∧
              (runLines st1 [] p.2).2.2 = (runLines st2 [] p.2).2.2 ∧
              Rel (runLines st1 [] p.2).1 (runLines st2 [] p.2).1 := by
            rcases hpath p hmem with hstub | hnog
            · rw [hstub]; exact runLines_stub_rel st1 st2 hrel
            · exact runLines_inv p.2 st1 st2 [] hrel hnog
          have hrec := ih _ _ stk hstep.2.2 hrest
          simp only [runTU, hact, if_true, hf]
          exact ⟨by rw [hstep.1, hrec.1], by rw [hstep.2.1, hrec.2.1],
            hrec.2.2⟩
        | none =>
          have hrec := ih st1 st2 stk hrel hrest
          simp only [runTU, hact, if_true, hf]
          exact ⟨hrec.1, by rw [hrec.2.1], hrec.2.2⟩
      · simp only [runTU, hact, if_false]
        exact ih st1 st2 stk hrel hrest
    | raw l =>
      cases l with
      | blank => exact ih st1 st2 stk hrel hrest
      | ifndefD n =>
        have hne : n ≠ gName := by simpa [usesGuardTU, usesGuard] using hi
        have hdef : isDefined st1 n = isDefined st2 n :=
          isDefined_congr st1 st2 n hne hrel.2
        simp only [runTU, hdef]
        exact ih st1 st2 _ hrel hrest
      | endifD =>
        cases stk with
        | nil =>
          have h := ih st1 st2 [] hrel hrest
          simp only [runTU]
          exact ⟨h.1, by rw [h.2.1], h.2.2⟩
        | cons b stk2 =>
          simp only [runTU]
          exact ih st1 st2 stk2 hrel hrest
      | defineD n r =>
        have hne : n ≠ gName := by simpa [usesGuardTU, usesGuard] using hi
        by_cases hact : allTrue stk = true
        · simp only [runTU, hact, if_true]
          exact ih _ _ stk (rel_cons st1 st2 n r hne hrel) hrest
        · simp only [runTU, hact, if_false]
          exact ih st1 st2 stk hrel hrest
      | other ts =>
        have hts : ts.any (fun t => t == gName) = false := by
          simpa [usesGuardTU, usesGuard] using hi
        have hexp : expandToks st1 ts = expandToks st2 ts :=
          expandToks_congr st1 st2 hrel.2 ts hts
        by_cases hact : allTrue stk = true
        · have h := ih st1 st2 stk hrel hrest
          simp only [runTU, hact, if_true]
          exact ⟨by rw [h.1, hexp], h.2.1, h.2.2⟩
        · simp only [runTU, hact, if_false]
          exact ih st1 st2 stk hrel hrest
      | unknownD ts =>
        by_cases hact : allTrue stk = true
        · have h := ih st1 st2 stk hrel hrest
          simp only [runTU, hact, if_true]
          exact ⟨h.1, by rw [h.2.1], h.2.2⟩
        · simp only [runTU, hact, if_false]
          exact ih st1 st2 stk hrel hrest

theorem stubPath_find (rest : List (String × List PPLine)) :
    (stubPath rest).find? (fun p => p.1 == hdrName) =
      some (hdrName, stubLines) := by
  simp [stubPath]

/-- Putting the stub first on any admissible tail keeps the path
admissible. -/
theorem stubPath_ok (rest : List (String × List PPLine))
    (hrest : PathOK rest) : PathOK (stubPath rest) := by
  intro p hp
  rcases List.mem_cons.mp hp with he | hm
  · left; rw [he]
  · exact hrest p hm

/-- Central comparison: a translation unit processed after including
the stub versus processed without the include directive.  Provided the
unit's own lines never mention the guard and the path is admissible,
the emitted token streams and the diagnostics coincide, and the final
definition states agree on every name other than the guard. -/
theorem runTU_include_vs_not (rest : List (String × List PPLine))
    (hpath : PathOK (stubPath rest)) (tu : List TUItem)
    (htu : tu.all (fun i => !(usesGuardTU i)) = true) (st : PPState) :
    (runTU (stubPath rest) st [] (TUItem.inc hdrName :: tu)).2.1 =
      (runTU (stubPath rest) st [] tu).2.1 ∧
    (runTU (stubPath rest) st [] (TUItem.inc hdrName :: tu)).2.2 =
      (runTU (stubPath rest) st [] tu).2.2 ∧
    ∀ m, m ≠ gName →
      lookupDef
        (runTU (stubPath rest) st [] (TUItem.inc hdrName :: tu)).1 m =
      lookupDef (runTU (stubPath rest) st [] tu).1 m := by
  have hstub : runLines st [] stubLines = includeOnce st := rfl
  have hrec := runTU_inv (stubPath rest) hpath tu (includeOnce st).1 st []
    (rel_includeOnce st) htu
  have hout : (includeOnce st).2.1 = [] := by rw [includeOnce_eq]
  have hdia : (includeOnce st).2.2 = [] := by rw [includeOnce_eq]
  simp only [runTU, allTrue, List.all_nil, if_true, stubPath_find, hstub]
  exact ⟨by rw [hout, hrec.1]; simp, by rw [hdia, hrec.2.1]; simp,
    hrec.2.2.2⟩

/-- Definedness after one inclusion, as a single equation: a name is
defined afterwards exactly when it was defined before or is the
guard. -/
theorem definedAfter_eq (st : PPState) (m : String) :
    isDefined (includeOnce st).1 m = (isDefined st m || (m == gName)) := by
  rw [includeOnce_eq]
  by_cases hm : m = gName
  · subst hm
    by_cases h : isDefined st gName = true
    · simp [h]
    · have h2 : isDefined st gName = false := by simpa using h
      simp [h2, isDefined_cons]
  · have hm2 : (m == gName) = false := by simpa using hm
    have hg2 : (gName == m) = false := by
      simpa using fun he => hm he.symm
    by_cases h : isDefined st gName = true
    · simp [h, hm2]
    · simp [h, isDefined_cons, hg2, hm2]

/-- The macro state after one inclusion is the old state, with the
guard definition possibly pushed on top. -/
theorem defsAfter_cases (st : PPState) :
    (includeOnce st).1.defs = st.defs ∨
      (includeOnce st).1.defs = (gName, []) :: st.defs := by
  rw [includeOnce_eq]
  by_cases h : isDefined st gName = true
  · simp [h]
  · simp [h]

/-- Repeated inclusion from a guard-defined state does nothing. -/
theorem noop_iter (k : Nat) : ∀ st, isDefined st gName = true →
    includeNTimes k st = (st, [], []) := by
  induction k with
  | zero => intro st _; rfl
  | succ k ih =>
    intro st h
    simp [includeNTimes, includeOnce_defined st h, ih st h]

/-- C1: preprocessing the stub for the first time (guard not yet
defined) introduces nothing but the guard macro, defined with empty
replacement text, and the guarded body contributes no tokens to the
output stream; every other name's definition state is untouched. -/
theorem claim1_first_inclusion_only_guard (st : PPState)
    (h : isDefined st gName = false) :
    includeOnce st = (⟨(gName, []) :: st.defs⟩, [], []) ∧
    ∀ m, m ≠ gName →
      lookupDef (includeOnce st).1 m = lookupDef st m := by
  exact ⟨includeOnce_not_defined st h,
    fun m hm => (rel_includeOnce st).2 m hm⟩

/-- Witness for C1 at the empty state. -/
theorem claim1_witness :
    isDefined st0 gName = false ∧
    includeOnce st0 = (⟨[(gName, [])]⟩, [], []) := by
  have h := claim1_first_inclusion_only_guard st0 (by decide)
  exact ⟨by decide, h.1⟩

/-- C2: inclusion is idempotent: for every state and every `n ≥ 1`,
including the stub `n` times yields exactly the same final state,
emitted token stream, and diagnostics as including it once. -/
theorem claim2_idempotent (n : Nat) (st : PPState) (h : 1 ≤ n) :
    includeNTimes n st = includeOnce st := by
  cases n with
  | zero => exact absurd h (by decide)
  | succ k =>
    have hg := guard_defined_after st
    have h2 := noop_iter k (includeOnce st).1 hg
    simp only [includeNTimes, h2]
    rw [includeOnce_eq]
    simp

/-- Witness for C2 with three inclusions from the empty state. -/
theorem claim2_witness :
    1 ≤ 3 ∧ includeNTimes 3 st0 = includeOnce st0 :=
  ⟨by decide, claim2_idempotent 3 st0 (by decide)⟩

/-- C3 as stated is false: from the empty state, including the stub
does change the preprocessor's macro state (the guard macro becomes
defined). -/
theorem claim3_counterexample : (includeOnce st0).1 ≠ st0 := by decide

/-- C3 amended: preprocessing the stub leaves the macro state
unchanged except that the include-guard macro may be pushed (on first
inclusion); no other macro becomes defined or undefined, no tokens are
emitted, and no diagnostics arise. -/
theorem claim3_amended_frame (st : PPState) :
    ((includeOnce st).1.defs = st.defs ∨
      (includeOnce st).1.defs = (gName, []) :: st.defs) ∧
    (∀ m, m ≠ gName →
      lookupDef (includeOnce st).1 m = lookupDef st m) ∧
    (includeOnce st).2.1 = [] ∧ (includeOnce st).2.2 = [] := by
  refine ⟨defsAfter_cases st, fun m hm => (rel_includeOnce st).2 m hm,
    ?_, ?_⟩ <;> rw [includeOnce_eq]

/-- C4: with the stub resolvable on the include path, a unit that
gets everything it references from elsewhere (it compiles cleanly
without the include, and never mentions the guard name) also compiles
cleanly with the include directive present: no missing-header and no
undeclared-identifier diagnostic arises. -/
theorem claim4_compile_succeeds (rest : List (String × List PPLine))
    (declared : List String) (st : PPState) (tu : List TUItem)
    (hrest : PathOK rest)
    (htu : tu.all (fun i => !(usesGuardTU i)) = true)
    (hclean : compileTU (stubPath rest) declared st tu = []) :
    compileTU (stubPath rest) declared st
      (TUItem.inc hdrName :: tu) = [] := by
  have h := runTU_include_vs_not rest (stubPath_ok rest hrest) tu htu st
  unfold compileTU at hclean ⊢
  rw [h.1, h.2.1]
  exact hclean

/-- Witness for C4: a unit using the declared identifier `X`. -/
theorem claim4_witness :
    compileTU (stubPath []) [xTok] st0 tuX = [] ∧
    compileTU (stubPath []) [xTok] st0 (TUItem.inc hdrName :: tuX) = [] := by
  have hrest : PathOK [] := fun p hp => absurd hp (List.not_mem_nil p)
  exact ⟨by decide,
    claim4_compile_succeeds [] [xTok] st0 tuX hrest (by decide) (by decide)⟩

/-- C5: the artifact is exactly nine physical lines, and after comment
removal it consists of nothing but the residue of the comment block
(one blank line) and the three include-guard directives. -/
theorem claim5_nine_lines :
    (splitNL sourceText).length = 9 ∧
    stubLines = [PPLine.blank, PPLine.ifndefD gName,
      PPLine.defineD gName [], PPLine.endifD] := by decide

/-- C6: the stub's only externally visible definition is the guard
macro: a name is defined after inclusion exactly when it was defined
before or is `_SYS_SYSCALL_H_`, and the whole state change is at most
one pushed definition of that one name. -/
theorem claim6_only_guard_contract (st : PPState) :
    (∀ m, isDefined (includeOnce st).1 m =
      (isDefined st m || (m == gName))) ∧
    ((includeOnce st).1.defs = st.defs ∨
      (includeOnce st).1.defs = (gName, []) :: st.defs) :=
  ⟨fun m => definedAfter_eq st m, defsAfter_cases st⟩

/-- C7: preprocessing the stub itself never raises a diagnostic, from
any state; the only failure mode is the file being absent from the
include path, which surfaces as a missing-header diagnostic raised by
the include machinery, not by the file. -/
theorem claim7_no_diagnostics (st : PPState) :
    (includeOnce st).2.2 = [] ∧
    runTU [] st [] [TUItem.inc hdrName] =
      (st, [], [Diag.missingHeader hdrName]) := by
  constructor
  · rw [includeOnce_eq]
  · simp [runTU, allTrue, List.find?]

/-- C8 as stated is false: a unit that tests the guard macro after the
include emits a different token stream with the stub included than
with the include directive removed. -/
theorem claim8_counterexample :
    (runTU (stubPath []) st0 [] (TUItem.inc hdrName :: tuGuardTest)).2.1 ≠
      (runTU (stubPath []) st0 [] tuGuardTest).2.1 := by decide

/-- C8 amended: for a unit whose own lines never mention the guard
name (and an admissible path), the token stream handed to the compiler
proper with the stub included is identical to that of the same unit
with the include directive removed, the diagnostics coincide, and the
final macro states agree on every name other than the guard. -/
theorem claim8_amended_token_stream (rest : List (String × List PPLine))
    (st : PPState) (tu : List TUItem) (hrest : PathOK rest)
    (htu : tu.all (fun i => !(usesGuardTU i)) = true) :
    (runTU (stubPath rest) st [] (TUItem.inc hdrName :: tu)).2.1 =
      (runTU (stubPath rest) st [] tu).2.1 ∧
    (runTU (stubPath rest) st [] (TUItem.inc hdrName :: tu)).2.2 =
      (runTU (stubPath rest) st [] tu).2.2 ∧
    ∀ m, m ≠ gName →
      lookupDef
        (runTU (stubPath rest) st [] (TUItem.inc hdrName :: tu)).1 m =
        lookupDef (runTU (stubPath rest) st [] tu).1 m :=
  runTU_include_vs_not rest (stubPath_ok rest hrest) tu htu st

/-- Witness for the amended C8 on a concrete unit. -/
theorem claim8_witness :
    (runTU (stubPath []) st0 [] (TUItem.inc hdrName :: tuX)).2.1 =
      (runTU (stubPath []) st0 [] tuX).2.1 := by
  have hrest : PathOK [] := fun p hp => absurd hp (List.not_mem_nil p)
  exact (claim8_amended_token_stream [] st0 tuX hrest (by decide)).1

/-- C9: the stub defines none of the `SYS_` / `__NR_` constants its
comment mentions: the only name whose definedness an inclusion can
change is the guard, whose name matches neither pattern; a unit that
expands such a constant fails identically with the stub and with no
header at all. -/
theorem claim9_no_syscall_constants :
    (∀ st m, isDefined (includeOnce st).1 m =
      (isDefined st m || (m == gName))) ∧
    hasPre sysPreStr.toList gName.toList = false ∧
    hasPre nrPreStr.toList gName.toList = false ∧
    compileTU (stubPath []) [] st0 (TUItem.inc hdrName :: tuSys) =
      [Diag.undeclaredId sysTok] ∧
    compileTU (stubPath []) [] st0 tuSys = [Diag.undeclaredId sysTok] :=
  ⟨fun st m => definedAfter_eq st m, by decide, by decide, by decide,
    by decide⟩

/-- C10: if the guard is already defined before the stub is included,
processing the stub is a complete no-op: same state, no tokens, no
diagnostics. -/
theorem claim10_noop_when_defined (st : PPState)
    (h : isDefined st gName = true) :
    includeOnce st = (st, [], []) :=
  includeOnce_defined st h

/-- Witness for C10 at a state that already defines the guard. -/
theorem claim10_witness :
    isDefined stG gName = true ∧ includeOnce stG = (stG, [], []) :=
  ⟨by decide, claim10_noop_when_defined stG (by decide)⟩

end SyscallStub
